import Mathlib

/-!
Verification of the dimensional-analysis engine (`include/dimensions.h`,
`include/units.h`).

The C++ library carries the seven SI base-exponent integers as a non-type
template parameter pack `Dimensions<M,L,T,I,K,N,J>`; here that static tag
becomes an explicit `Dimensions` value and the template metafunctions
`DimAdd`, `DimSub`, `DimScale`, `DimHalve` become functions on it.  The
`double` magnitude is modelled by `Double`: either NaN, a signed infinity, or a
finite value carried exactly as a rational together with its IEEE-754 sign
bit (the bit is redundant except at zero, where it distinguishes `-0.0`
from `+0.0`).  Finite arithmetic is exact — rounding is outside the model —
while the special-value and sign rules follow IEEE-754, which is what the
C++ `double` operators provide.
-/

/-- The seven SI base-dimension exponents, one signed integer per slot,
mirroring `template <int M, int L, int T, int I, int K, int N, int J>
struct Dimensions`. -/
structure Dimensions where
  mass : ℤ
  length : ℤ
  time : ℤ
  current : ℤ
  temp : ℤ
  amount : ℤ
  luminosity : ℤ
deriving DecidableEq

/-- The all-zero (dimensionless) vector, the default template arguments
`I=0, K=0, N=0, J=0` extended to all seven slots. -/
def dimZero : Dimensions := ⟨0, 0, 0, 0, 0, 0, 0⟩

/-- Elementwise sum of two dimension vectors (`struct DimAdd`). -/
def DimAdd (a b : Dimensions) : Dimensions :=
  ⟨a.mass + b.mass, a.length + b.length, a.time + b.time,
   a.current + b.current, a.temp + b.temp,
   a.amount + b.amount, a.luminosity + b.luminosity⟩

/-- Elementwise difference of two dimension vectors (`struct DimSub`). -/
def DimSub (a b : Dimensions) : Dimensions :=
  ⟨a.mass - b.mass, a.length - b.length, a.time - b.time,
   a.current - b.current, a.temp - b.temp,
   a.amount - b.amount, a.luminosity - b.luminosity⟩

/-- Multiply all exponents by `n` (`struct DimScale`, used by `pow<N>`). -/
def DimScale (d : Dimensions) (n : ℤ) : Dimensions :=
  ⟨d.mass * n, d.length * n, d.time * n,
   d.current * n, d.temp * n, d.amount * n, d.luminosity * n⟩

/-- Halve all exponents (`struct DimHalve`, used by `sqrt`).  C++ `/` on
`int` truncates toward zero, which is `Int.tdiv`.  The template
instantiates only under the seven `static_assert`s collected in
`DimHalveOK`; under that guard every division here is exact. -/
def DimHalve (d : Dimensions) : Dimensions :=
  ⟨d.mass.tdiv 2, d.length.tdiv 2, d.time.tdiv 2,
   d.current.tdiv 2, d.temp.tdiv 2, d.amount.tdiv 2, d.luminosity.tdiv 2⟩

/-- The conjunction of the seven `static_assert(... % 2 == 0)` guards of
`DimHalve`: every exponent must be even.  (C++ `%` truncates while Lean's
`%` is Euclidean, but `x % 2 == 0` means evenness under both.) -/
def DimHalveOK (d : Dimensions) : Prop :=
  d.mass % 2 = 0 ∧ d.length % 2 = 0 ∧ d.time % 2 = 0 ∧
  d.current % 2 = 0 ∧ d.temp % 2 = 0 ∧ d.amount % 2 = 0 ∧
  d.luminosity % 2 = 0

instance (d : Dimensions) : Decidable (DimHalveOK d) := by
  unfold DimHalveOK; infer_instance

/-- Slot accessor in the fixed order mass, length, time, current, temp,
amount, luminosity (the order of the template parameters and of the
`static_assert` messages). -/
def slot (d : Dimensions) (i : ℕ) : ℤ :=
  [d.mass, d.length, d.time, d.current, d.temp, d.amount, d.luminosity].getD i 0

/-- The indices of the slots whose `static_assert` in `DimHalve` fires:
each of the seven asserts names its own slot, so a failing instantiation
reports exactly the non-even slots. -/
def oddSlots (d : Dimensions) : List ℕ :=
  (if d.mass % 2 = 0 then [] else [0]) ++
  (if d.length % 2 = 0 then [] else [1]) ++
  (if d.time % 2 = 0 then [] else [2]) ++
  (if d.current % 2 = 0 then [] else [3]) ++
  (if d.temp % 2 = 0 then [] else [4]) ++
  (if d.amount % 2 = 0 then [] else [5]) ++
  (if d.luminosity % 2 = 0 then [] else [6])

/-- Model of the C++ `double`: NaN, a signed infinity, or a finite value.
A finite value is an exact rational plus the IEEE-754 sign bit; the bit is
redundant for nonzero payloads and distinguishes `-0.0` from `+0.0`. -/
inductive Double where
  | nan : Double
  | inf : Bool → Double
  | fin : ℚ → Bool → Double
deriving DecidableEq

/-- IEEE sign bit of a value (`true` = negative); the sign of NaN is
irrelevant to every operation modelled here. -/
def Double.signBit : Double → Bool
  | .nan => false
  | .inf p => !p
  | .fin q nz => if q = 0 then nz else decide (q < 0)

/-- Embed a rational as a finite double with the canonical sign bit. -/
def Double.ofRat (x : ℚ) : Double := .fin x (decide (x < 0))

/-- Finite payload of a value, `none` on NaN and infinities. -/
def Double.toRat? : Double → Option ℚ
  | .fin q _ => some q
  | _ => none

/-- Whether the value is finite (neither NaN nor an infinity). -/
def Double.isFinite : Double → Bool
  | .fin _ _ => true
  | _ => false

/-- Whether the value is a zero (of either sign). -/
def Double.isZero : Double → Bool
  | .fin q _ => q == 0
  | _ => false

/-- IEEE negation: flip the sign bit (C++ unary `-` on the magnitude). -/
def fpNeg : Double → Double
  | .nan => .nan
  | .inf p => .inf (!p)
  | .fin q nz => .fin (-q) (!nz)

/-- IEEE addition: NaN is absorbing, opposite infinities give NaN, and a
finite sum is exact; an exactly zero sum is `-0.0` only when both operands
are negatively signed zeros (round-to-nearest convention). -/
def fpAdd : Double → Double → Double
  | .nan, _ => .nan
  | _, .nan => .nan
  | .inf p, .inf q => if p = q then .inf p else .nan
  | .inf p, .fin _ _ => .inf p
  | .fin _ _, .inf q => .inf q
  | .fin x a, .fin y b =>
      .fin (x + y) (if x + y = 0 then a && b else decide (x + y < 0))

/-- IEEE subtraction, `x - y = x + (-y)` (C++ binary `-`). -/
def fpSub (x y : Double) : Double := fpAdd x (fpNeg y)

/-- IEEE multiplication: NaN absorbing, `inf * 0` is NaN, the result sign
is the exclusive or of the operand signs, and a finite product is exact. -/
def fpMul : Double → Double → Double
  | .nan, _ => .nan
  | _, .nan => .nan
  | .inf p, .inf q => .inf (p == q)
  | .inf p, .fin y b =>
      if y = 0 then .nan else .inf (!(xor (!p) (Double.signBit (.fin y b))))
  | .fin x a, .inf q =>
      if x = 0 then .nan else .inf (!(xor (Double.signBit (.fin x a)) (!q)))
  | .fin x a, .fin y b =>
      .fin (x * y) (xor (Double.signBit (.fin x a)) (Double.signBit (.fin y b)))

/-- IEEE division: NaN absorbing, `inf / inf` and `0 / 0` are NaN, a
nonzero finite over a zero gives a signed infinity, a finite over an
infinity gives a signed zero, and a finite quotient is exact. -/
def fpDiv : Double → Double → Double
  | .nan, _ => .nan
  | _, .nan => .nan
  | .inf _, .inf _ => .nan
  | .inf p, .fin y b => .inf (!(xor (!p) (Double.signBit (.fin y b))))
  | .fin x a, .inf q => .fin 0 (xor (Double.signBit (.fin x a)) (!q))
  | .fin x a, .fin y b =>
      if y = 0 then
        (if x = 0 then .nan
         else .inf (!(xor (Double.signBit (.fin x a)) (Double.signBit (.fin y b)))))
      else .fin (x / y) (xor (Double.signBit (.fin x a)) (Double.signBit (.fin y b)))

/-- Three-way comparison of doubles, the builtin `<=>` yielding
`std::partial_ordering`: `none` is `unordered` (at least one NaN), the
sign bit of zero is ignored, and infinities order around every finite
value. -/
def fcmp : Double → Double → Option Ordering
  | .nan, _ => none
  | _, .nan => none
  | .inf p, .inf q =>
      some (if p = q then .eq else if q then .lt else .gt)
  | .inf p, .fin _ _ => some (if p then .gt else .lt)
  | .fin _ _, .inf q => some (if q then .lt else .gt)
  | .fin x _, .fin y _ =>
      some (if x < y then .lt else if y < x then .gt else .eq)

/-- Whether an integer is odd, the parity that drives the IEEE sign rules
of `pow` for integer exponents. -/
def oddInt (n : ℤ) : Bool := decide (n % 2 ≠ 0)

/-- Model of `std::pow(x, N)` for an integer exponent `N`, following the C
standard (IEC 60559) special cases: `pow(x, 0)` is `1` for every `x`
including NaN and infinities; a negative exponent is the reciprocal, so
`pow(0, N)` with negative `N` is a signed infinity; the finite nonzero
cases are exact rational powers. -/
def fpPow (f : Double) (n : ℤ) : Double :=
  if n = 0 then .fin 1 false
  else
    match f with
    | .nan => .nan
    | .inf p =>
        if 0 < n then .inf (p || !(oddInt n))
        else .fin 0 (!p && oddInt n)
    | .fin x nz =>
        if 0 < n then .fin (x ^ n) (Double.signBit (.fin x nz) && oddInt n)
        else
          if x = 0 then .inf (!(nz && oddInt n))
          else .fin (x ^ n) (Double.signBit (.fin x nz) && oddInt n)

/-- Exact square root on rationals whose root is rational: integer square
roots of the (sign-normalised) numerator and of the denominator.  On a
rational that is the square of a rational this is that root; elsewhere it
is only an integer-approximation, standing in for the correctly rounded
`std::sqrt`, whose sub-ulp rounding is outside this exact model. -/
def ratSqrt (x : ℚ) : ℚ := (Nat.sqrt x.num.toNat : ℚ) / (Nat.sqrt x.den : ℚ)

/-- Model of `std::sqrt`: NaN for NaN, `+inf` for `+inf`, NaN for any
negative value (no complex results), the zeros map to themselves keeping
their sign, and a positive value maps to its (rational-exact) root. -/
def fpSqrt : Double → Double
  | .nan => .nan
  | .inf p => if p then .inf true else .nan
  | .fin x nz =>
      if x < 0 then .nan
      else if x = 0 then .fin 0 nz
      else .fin (ratSqrt x) false

/-- A physical quantity: the C++ `template <typename Dim> struct Quantity`
wraps one `double`; the dimension tag is the type index. -/
structure Quantity (d : Dimensions) where
  value : Double
deriving DecidableEq

/-- The static dimension tag of a quantity, read off the type index. -/
def qdim {d : Dimensions} (_ : Quantity d) : Dimensions := d

/-- `Quantity * Quantity`: multiply magnitudes, `DimAdd` the dimensions. -/
def qmul {d1 d2 : Dimensions} (a : Quantity d1) (b : Quantity d2) :
    Quantity (DimAdd d1 d2) := ⟨fpMul a.value b.value⟩

/-- `Quantity / Quantity`: divide magnitudes, `DimSub` the dimensions. -/
def qdiv {d1 d2 : Dimensions} (a : Quantity d1) (b : Quantity d2) :
    Quantity (DimSub d1 d2) := ⟨fpDiv a.value b.value⟩

/-- Same-dimension addition (the C++ overload exists only at one `Dim`). -/
def qadd {d : Dimensions} (a b : Quantity d) : Quantity d :=
  ⟨fpAdd a.value b.value⟩

/-- Same-dimension subtraction. -/
def qsub {d : Dimensions} (a b : Quantity d) : Quantity d :=
  ⟨fpSub a.value b.value⟩

/-- Scalar division `Quantity / double`: dimension unchanged. -/
def qdivScalar {d : Dimensions} (q : Quantity d) (s : Double) : Quantity d :=
  ⟨fpDiv q.value s⟩

/-- The six relational operators are all derived from the one defaulted
`operator<=>` (and its implicitly declared defaulted `operator==`):
`a < b` tests the three-way result for `less`. -/
def qlt {d : Dimensions} (a b : Quantity d) : Bool :=
  decide (fcmp a.value b.value = some .lt)

/-- a > b from the three-way result (`greater`). -/
def qgt {d : Dimensions} (a b : Quantity d) : Bool :=
  decide (fcmp a.value b.value = some .gt)

/-- a == b from the three-way result (`equivalent`); on doubles this is
the IEEE equality (NaN unequal to everything, `-0.0 == +0.0`). -/
def qeq {d : Dimensions} (a b : Quantity d) : Bool :=
  decide (fcmp a.value b.value = some .eq)

/-- a <= b: less or equivalent (false on unordered). -/
def qle {d : Dimensions} (a b : Quantity d) : Bool := qlt a b || qeq a b

/-- a >= b: greater or equivalent (false on unordered). -/
def qge {d : Dimensions} (a b : Quantity d) : Bool := qgt a b || qeq a b

/-- a != b: the rewritten negation of a == b. -/
def qne {d : Dimensions} (a b : Quantity d) : Bool := !qeq a b

/-- `pow<N>(q)`: scale the dimension exponents by `N`, raise the magnitude
to the `N`-th power. -/
def qpow {d : Dimensions} (n : ℤ) (q : Quantity d) : Quantity (DimScale d n) :=
  ⟨fpPow q.value n⟩

/-- `sqrt(q)`: halve the dimension exponents (compiling only under the
`DimHalveOK` guard), take the square root of the magnitude. -/
def qsqrt {d : Dimensions} (q : Quantity d) : Quantity (DimHalve d) :=
  ⟨fpSqrt q.value⟩

/-- One iteration of the `dim_string` loop body: skip a zero exponent,
otherwise append the separator (when something was already printed), the
unit symbol, and `^exponent` unless the exponent is `1`. -/
def dimStep (acc : String) (nm : String) (e : ℤ) : String :=
  if e = 0 then acc
  else ((if acc = "" then acc else acc ++ "·") ++ nm) ++
    (if e ≠ 1 then "^" ++ toString e else "")

/-- The seven (symbol, exponent) slots in the fixed iteration order of
`detail::dim_string`: `kg, m, s, A, K, mol, cd`. -/
def dimSlots (d : Dimensions) : List (String × ℤ) :=
  [("kg", d.mass), ("m", d.length), ("s", d.time), ("A", d.current),
   ("K", d.temp), ("mol", d.amount), ("cd", d.luminosity)]

/-- The dimension string of `detail::dim_string`: fold the loop body over
the seven slots, and print the dimensionless marker `1` when nothing was
printed. -/
def dim_string (d : Dimensions) : String :=
  if (dimSlots d).foldl (fun acc p => dimStep acc p.1 p.2) "" = "" then "1"
  else (dimSlots d).foldl (fun acc p => dimStep acc p.1 p.2) ""

/-- The stream output `os << q`: the magnitude text (delegated to the
stream's own `double` formatter, outside this model) followed by the
bracketed dimension string. -/
def printQuantity (magText : String) (d : Dimensions) : String :=
  magText ++ " [" ++ dim_string d ++ "]"

/-- Dimension of `Mass = Quantity<Dimensions<1,0,0>>`. -/
def dimMass : Dimensions := ⟨1, 0, 0, 0, 0, 0, 0⟩

/-- Dimension of `Length`. -/
def dimLength : Dimensions := ⟨0, 1, 0, 0, 0, 0, 0⟩

/-- Dimension of `Time`. -/
def dimTime : Dimensions := ⟨0, 0, 1, 0, 0, 0, 0⟩

/-- Dimension of `Current`. -/
def dimCurrent : Dimensions := ⟨0, 0, 0, 1, 0, 0, 0⟩

/-- Dimension of `Temperature`. -/
def dimTemperature : Dimensions := ⟨0, 0, 0, 0, 1, 0, 0⟩

/-- Dimension of `Amount`. -/
def dimAmount : Dimensions := ⟨0, 0, 0, 0, 0, 1, 0⟩

/-- Dimension of `Luminosity` (also `LuminousFlux`). -/
def dimLuminosity : Dimensions := ⟨0, 0, 0, 0, 0, 0, 1⟩

/-- Dimension of `Area = Quantity<Dimensions<0,2,0>>`. -/
def dimArea : Dimensions := ⟨0, 2, 0, 0, 0, 0, 0⟩

/-- Dimension of `Volume`. -/
def dimVolume : Dimensions := ⟨0, 3, 0, 0, 0, 0, 0⟩

/-- Dimension of `Velocity = Quantity<Dimensions<0,1,-1>>`. -/
def dimVelocity : Dimensions := ⟨0, 1, -1, 0, 0, 0, 0⟩

/-- Dimension of `Force = Quantity<Dimensions<1,1,-2>>`. -/
def dimForce : Dimensions := ⟨1, 1, -2, 0, 0, 0, 0⟩

/-- Dimension of `Energy = Quantity<Dimensions<1,2,-2>>`. -/
def dimEnergy : Dimensions := ⟨1, 2, -2, 0, 0, 0, 0⟩

/-- Dimension of `Power`. -/
def dimPower : Dimensions := ⟨1, 2, -3, 0, 0, 0, 0⟩

/-- Dimension of `Pressure = Quantity<Dimensions<1,-1,-2>>`. -/
def dimPressure : Dimensions := ⟨1, -1, -2, 0, 0, 0, 0⟩

/-- Dimension of `Frequency` (also `RadioactiveActivity`). -/
def dimFrequency : Dimensions := ⟨0, 0, -1, 0, 0, 0, 0⟩

/-- Dimension of `Charge = Quantity<Dimensions<0,0,1,1>>`. -/
def dimCharge : Dimensions := ⟨0, 0, 1, 1, 0, 0, 0⟩

/-- Dimension of `Voltage = Quantity<Dimensions<1,2,-3,-1>>`. -/
def dimVoltage : Dimensions := ⟨1, 2, -3, -1, 0, 0, 0⟩

/-- Dimension of `Resistance`. -/
def dimResistance : Dimensions := ⟨1, 2, -3, -2, 0, 0, 0⟩

/-- Dimension of `Capacitance`. -/
def dimCapacitance : Dimensions := ⟨-1, -2, 4, 2, 0, 0, 0⟩

/-- Dimension of `Inductance`. -/
def dimInductance : Dimensions := ⟨1, 2, -2, -2, 0, 0, 0⟩

/-- Dimension of `MagneticFlux`. -/
def dimMagneticFlux : Dimensions := ⟨1, 2, -2, -1, 0, 0, 0⟩

/-- Dimension of `MagneticField`. -/
def dimMagneticField : Dimensions := ⟨1, 0, -2, -1, 0, 0, 0⟩

/-- Dimension of `Conductance`. -/
def dimConductance : Dimensions := ⟨-1, -2, 3, 2, 0, 0, 0⟩

/-- Dimension of `AbsorbedDose = Quantity<Dimensions<0,2,-2>>`. -/
def dimAbsorbedDose : Dimensions := ⟨0, 2, -2, 0, 0, 0, 0⟩

/-- Dimension of `Illuminance = Quantity<Dimensions<0,-2,0,0,0,0,1>>`. -/
def dimIlluminance : Dimensions := ⟨0, -2, 0, 0, 0, 0, 1⟩

/-- A named-unit conversion record: symbol, target dimension,
multiplicative scale, additive offset (`offset = 0` for every union of the
table except the two affine temperature scales). -/
structure UnitEntry where
  name : String
  dim : Dimensions
  scale : ℚ
  offset : ℚ
deriving DecidableEq

/-- Magnitude computed by `operator""_degF(long double v)`:
`(v - 32.0L) * 5.0L/9.0L + 273.15L`, the arithmetic exact here (the
long-double rounding is outside the model). -/
def fahrenheitLD (v : ℚ) : ℚ := (v - 32) * 5 / 9 + 273.15

/-- Magnitude computed by `operator""_degF(unsigned long long v)`:
`(static_cast<double>(v) - 32.0) * 5.0/9.0 + 273.15`, the same expression
tree evaluated in `double` precision. -/
def fahrenheitULL (n : ℕ) : ℚ := ((n : ℚ) - 32) * 5 / 9 + 273.15

/-- The `_degC` conversion: `v + 273.15`, i.e. scale `1`, offset
`273.15`. -/
def celsiusEntry : UnitEntry := ⟨"degC", dimTemperature, 1, 273.15⟩

/-- The `_degF` conversion `(v - 32) * 5/9 + 273.15` in affine normal
form: scale `5/9`, offset the value of the formula at `0`. -/
def fahrenheitEntry : UnitEntry := ⟨"degF", dimTemperature, 5 / 9, fahrenheitLD 0⟩

/-- Mass-section literal suffixes (SI base: kg). -/
def catalogueMass : List UnitEntry := [
  ⟨"kg", dimMass, 1, 0⟩, ⟨"g", dimMass, 1e-3, 0⟩, ⟨"mg", dimMass, 1e-6, 0⟩,
  ⟨"Da", dimMass, 1.66053906660e-27, 0⟩, ⟨"u", dimMass, 1.66053906660e-27, 0⟩,
  ⟨"tonne", dimMass, 1e3, 0⟩, ⟨"lb", dimMass, 0.45359237, 0⟩,
  ⟨"lbm", dimMass, 0.45359237, 0⟩, ⟨"oz", dimMass, 0.028349523125, 0⟩,
  ⟨"slug", dimMass, 14.593902937, 0⟩]

/-- Length-section literal suffixes (SI base: m). -/
def catalogueLength : List UnitEntry := [
  ⟨"m", dimLength, 1, 0⟩, ⟨"km", dimLength, 1e3, 0⟩, ⟨"cm", dimLength, 1e-2, 0⟩,
  ⟨"mm", dimLength, 1e-3, 0⟩, ⟨"in", dimLength, 0.0254, 0⟩,
  ⟨"ft", dimLength, 0.3048, 0⟩, ⟨"yd", dimLength, 0.9144, 0⟩,
  ⟨"mi", dimLength, 1609.344, 0⟩, ⟨"nmi", dimLength, 1852.0, 0⟩,
  ⟨"au", dimLength, 1.495978707e11, 0⟩, ⟨"ly", dimLength, 9.4607304725808e15, 0⟩,
  ⟨"pc", dimLength, 3.085677581491367e16, 0⟩,
  ⟨"kpc", dimLength, 3.085677581491367e19, 0⟩,
  ⟨"Mpc", dimLength, 3.085677581491367e22, 0⟩]

/-- Time-section literal suffixes (SI base: s). -/
def catalogueTime : List UnitEntry := [
  ⟨"s", dimTime, 1, 0⟩, ⟨"ms", dimTime, 1e-3, 0⟩, ⟨"us", dimTime, 1e-6, 0⟩,
  ⟨"min", dimTime, 60.0, 0⟩, ⟨"hr", dimTime, 3600.0, 0⟩,
  ⟨"day", dimTime, 86400.0, 0⟩, ⟨"yr", dimTime, 31557600.0, 0⟩]

/-- Current-section literal suffixes (SI base: A). -/
def catalogueCurrent : List UnitEntry := [
  ⟨"A", dimCurrent, 1, 0⟩, ⟨"mA", dimCurrent, 1e-3, 0⟩,
  ⟨"uA", dimCurrent, 1e-6, 0⟩, ⟨"nA", dimCurrent, 1e-9, 0⟩]

/-- Temperature-section literal suffixes (SI base: K; the two affine
scales convert to Kelvin on construction). -/
def catalogueTemperature : List UnitEntry := [
  ⟨"K", dimTemperature, 1, 0⟩, celsiusEntry, fahrenheitEntry]

/-- Amount- and luminosity-section literal suffixes. -/
def catalogueAmountLum : List UnitEntry := [
  ⟨"mol", dimAmount, 1, 0⟩, ⟨"mmol", dimAmount, 1e-3, 0⟩,
  ⟨"cd", dimLuminosity, 1, 0⟩]

/-- Force-section literal suffixes (SI: N). -/
def catalogueForce : List UnitEntry := [
  ⟨"N", dimForce, 1, 0⟩, ⟨"kN", dimForce, 1e3, 0⟩,
  ⟨"lbf", dimForce, 4.4482216152605, 0⟩]

/-- Energy-section literal suffixes (SI: J). -/
def catalogueEnergy : List UnitEntry := [
  ⟨"J", dimEnergy, 1, 0⟩, ⟨"kJ", dimEnergy, 1e3, 0⟩,
  ⟨"cal", dimEnergy, 4.184, 0⟩, ⟨"kcal", dimEnergy, 4184.0, 0⟩,
  ⟨"eV", dimEnergy, 1.602176634e-19, 0⟩, ⟨"meV", dimEnergy, 1.602176634e-22, 0⟩,
  ⟨"MeV", dimEnergy, 1.602176634e-13, 0⟩, ⟨"GeV", dimEnergy, 1.602176634e-10, 0⟩,
  ⟨"Wh", dimEnergy, 3600.0, 0⟩, ⟨"kWh", dimEnergy, 3.6e6, 0⟩,
  ⟨"BTU", dimEnergy, 1055.05585262, 0⟩]

/-- Power-section literal suffixes (SI: W). -/
def cataloguePower : List UnitEntry := [
  ⟨"W", dimPower, 1, 0⟩, ⟨"kW", dimPower, 1e3, 0⟩, ⟨"MW", dimPower, 1e6, 0⟩,
  ⟨"hp", dimPower, 745.69987158227022, 0⟩]

/-- Pressure-section literal suffixes (SI: Pa). -/
def cataloguePressure : List UnitEntry := [
  ⟨"Pa", dimPressure, 1, 0⟩, ⟨"kPa", dimPressure, 1e3, 0⟩,
  ⟨"MPa", dimPressure, 1e6, 0⟩, ⟨"bar", dimPressure, 1e5, 0⟩,
  ⟨"atm", dimPressure, 101325.0, 0⟩, ⟨"psi", dimPressure, 6894.757293168, 0⟩,
  ⟨"torr", dimPressure, 101325.0 / 760.0, 0⟩,
  ⟨"mmHg", dimPressure, 133.322387415, 0⟩]

/-- Frequency, volume, area and velocity literal suffixes. -/
def catalogueFreqVolAreaVel : List UnitEntry := [
  ⟨"Hz", dimFrequency, 1, 0⟩, ⟨"kHz", dimFrequency, 1e3, 0⟩,
  ⟨"MHz", dimFrequency, 1e6, 0⟩, ⟨"GHz", dimFrequency, 1e9, 0⟩,
  ⟨"L", dimVolume, 1e-3, 0⟩, ⟨"mL", dimVolume, 1e-6, 0⟩,
  ⟨"b", dimArea, 1e-28, 0⟩,
  ⟨"kn", dimVelocity, 1852.0 / 3600.0, 0⟩]

/-- Voltage- and charge-section literal suffixes. -/
def catalogueVoltageCharge : List UnitEntry := [
  ⟨"MV", dimVoltage, 1e6, 0⟩, ⟨"kV", dimVoltage, 1e3, 0⟩,
  ⟨"V", dimVoltage, 1, 0⟩, ⟨"mV", dimVoltage, 1e-3, 0⟩,
  ⟨"uV", dimVoltage, 1e-6, 0⟩,
  ⟨"C", dimCharge, 1, 0⟩, ⟨"mC", dimCharge, 1e-3, 0⟩,
  ⟨"uC", dimCharge, 1e-6, 0⟩, ⟨"nC", dimCharge, 1e-9, 0⟩,
  ⟨"pC", dimCharge, 1e-12, 0⟩]

/-- Electromagnetism named-unit literal suffixes with prefix ladder. -/
def catalogueEM : List UnitEntry := [
  ⟨"Wb", dimMagneticFlux, 1, 0⟩, ⟨"T", dimMagneticField, 1, 0⟩,
  ⟨"H", dimInductance, 1, 0⟩, ⟨"mH", dimInductance, 1e-3, 0⟩,
  ⟨"uH", dimInductance, 1e-6, 0⟩, ⟨"nH", dimInductance, 1e-9, 0⟩,
  ⟨"F", dimCapacitance, 1, 0⟩, ⟨"mF", dimCapacitance, 1e-3, 0⟩,
  ⟨"uF", dimCapacitance, 1e-6, 0⟩, ⟨"nF", dimCapacitance, 1e-9, 0⟩,
  ⟨"pF", dimCapacitance, 1e-12, 0⟩,
  ⟨"Mohm", dimResistance, 1e6, 0⟩, ⟨"kohm", dimResistance, 1e3, 0⟩,
  ⟨"ohm", dimResistance, 1, 0⟩, ⟨"mohm", dimResistance, 1e-3, 0⟩,
  ⟨"S", dimConductance, 1, 0⟩]

/-- Radiation, dosimetry and photometry literal suffixes. -/
def catalogueRadPhoto : List UnitEntry := [
  ⟨"Bq", dimFrequency, 1, 0⟩, ⟨"Ci", dimFrequency, 3.7e10, 0⟩,
  ⟨"Gy", dimAbsorbedDose, 1, 0⟩, ⟨"Sv", dimAbsorbedDose, 1, 0⟩,
  ⟨"lm", dimLuminosity, 1, 0⟩, ⟨"lx", dimIlluminance, 1, 0⟩]

/-- The whole literal-suffix table of `units.h`, one entry per suffix, in
source order; each `long double` operator computes `v * scale` (plus, for
the two affine scales, the offset). -/
def catalogue : List UnitEntry :=
  catalogueMass ++ catalogueLength ++ catalogueTime ++ catalogueCurrent ++
  catalogueTemperature ++ catalogueAmountLum ++ catalogueForce ++
  catalogueEnergy ++ cataloguePower ++ cataloguePressure ++
  catalogueFreqVolAreaVel ++ catalogueVoltageCharge ++ catalogueEM ++
  catalogueRadPhoto

/-- The construction performed by a `long double` literal, in named-unit
form: `magnitude = v * scale + offset`, stored in SI base units. -/
def applyLD (e : UnitEntry) (v : ℚ) : Quantity e.dim :=
  ⟨Double.ofRat (v * e.scale + e.offset)⟩

/-- The construction performed by the `unsigned long long` overload of a
literal: the same entry applied to the cast integer. -/
def applyULL (e : UnitEntry) (n : ℕ) : Quantity e.dim :=
  ⟨Double.ofRat ((n : ℚ) * e.scale + e.offset)⟩

/-- Truncating division by two is exact on a doubled integer. -/
lemma tdiv_two_of_double (x : ℤ) : (x * 2).tdiv 2 = x :=
  Int.mul_tdiv_cancel x (by decide)

/-- C4: for all dimension vectors, `add(d, zero) = d`, `subtract(d, d) =
zero`, `scale(d, 1) = d`, `scale(d, 0) = zero`, `halve(scale(d, 2)) = d`,
and `subtract(add(d1, d2), d2) = d1`, with exact elementwise equality over
all seven slots. -/
theorem dim_algebra_laws (d d1 d2 : Dimensions) :
    DimAdd d dimZero = d ∧ DimSub d d = dimZero ∧ DimScale d 1 = d ∧
    DimScale d 0 = dimZero ∧ DimHalve (DimScale d 2) = d ∧
    DimSub (DimAdd d1 d2) d2 = d1 := by
  refine ⟨?_, ?_, ?_, ?_, ?_, ?_⟩ <;>
    simp [DimAdd, DimSub, DimScale, DimHalve, dimZero, tdiv_two_of_double]

/-- C1: the product of two quantities multiplies the magnitudes and
`DimAdd`s (elementwise-sums) the dimensions; the quotient divides the
magnitudes and `DimSub`s (elementwise-subtracts) the dimensions.  The
last two conjuncts check the magnitude arithmetic on finite payloads. -/
theorem quantity_mul_div_spec (d1 d2 : Dimensions)
    (a : Quantity d1) (b : Quantity d2) :
    (qmul a b).value = fpMul a.value b.value ∧
    qdim (qmul a b) = DimAdd (qdim a) (qdim b) ∧
    DimAdd d1 d2 = ⟨d1.mass + d2.mass, d1.length + d2.length,
      d1.time + d2.time, d1.current + d2.current, d1.temp + d2.temp,
      d1.amount + d2.amount, d1.luminosity + d2.luminosity⟩ ∧
    (qdiv a b).value = fpDiv a.value b.value ∧
    qdim (qdiv a b) = DimSub (qdim a) (qdim b) ∧
    DimSub d1 d2 = ⟨d1.mass - d2.mass, d1.length - d2.length,
      d1.time - d2.time, d1.current - d2.current, d1.temp - d2.temp,
      d1.amount - d2.amount, d1.luminosity - d2.luminosity⟩ ∧
    (∀ (x y : ℚ) (nx ny : Bool),
      (fpMul (.fin x nx) (.fin y ny)).toRat? = some (x * y)) ∧
    (∀ (x y : ℚ) (nx ny : Bool), y ≠ 0 →
      (fpDiv (.fin x nx) (.fin y ny)).toRat? = some (x / y)) := by
  refine ⟨rfl, rfl, rfl, rfl, rfl, rfl, ?_, ?_⟩
  · intro x y nx ny
    simp [fpMul, Double.toRat?]
  · intro x y nx ny hy
    simp [fpDiv, hy, Double.toRat?]

/-- Concrete instance of the quotient-magnitude clause of
`quantity_mul_div_spec` with its nonzero-divisor hypothesis discharged. -/
theorem quantity_mul_div_spec_inst :
    (fpDiv (.fin 3 false) (.fin 2 false)).toRat? = some (3 / 2) :=
  (quantity_mul_div_spec dimMass dimTime ⟨.fin 3 false⟩
    ⟨.fin 2 false⟩).2.2.2.2.2.2.2 3 2 false false (by decide)

/-- C3: `pow<N>(q)` scales every dimension exponent by `N` and raises the
magnitude to the `N`-th real power; `N = 0` gives magnitude exactly `1`
and the all-zero dimension vector whatever the operand; `N = -1` on a
magnitude-2 quantity gives magnitude `1/2`, and on a velocity the exact
elementwise negation of the velocity dimension vector. -/
theorem pow_spec (d : Dimensions) (n : ℤ) (q : Quantity d) :
    (qpow n q).value = fpPow q.value n ∧
    qdim (qpow n q) = DimScale (qdim q) n ∧
    (∀ (x : ℚ) (nz : Bool) (m : ℤ), (x ≠ 0 ∨ 0 ≤ m) →
      (fpPow (.fin x nz) m).toRat? = some (x ^ m)) ∧
    (∀ f : Double, fpPow f 0 = .fin 1 false) ∧
    DimScale d 0 = dimZero ∧
    (fpPow (.fin 2 false) (-1)).toRat? = some (1 / 2) ∧
    DimScale dimVelocity (-1) =
      ⟨-dimVelocity.mass, -dimVelocity.length, -dimVelocity.time,
       -dimVelocity.current, -dimVelocity.temp, -dimVelocity.amount,
       -dimVelocity.luminosity⟩ := by
  refine ⟨rfl, rfl, ?_, ?_, ?_, ?_, ?_⟩
  · intro x nz m hm
    unfold fpPow
    rcases eq_or_ne m 0 with rfl | hm0
    · simp [Double.toRat?]
    · rcases lt_or_le 0 m with hpos | hneg
      · simp [hm0, hpos, Double.toRat?]
      · have hlt : ¬ 0 < m := not_lt.mpr hneg
        have hx : x ≠ 0 := by
          rcases hm with hx | hge
          · exact hx
          · exact absurd (lt_of_le_of_ne hge (Ne.symm hm0)) hlt
        simp [hm0, hlt, hx, Double.toRat?]
  · intro f
    unfold fpPow
    simp
  · simp [DimScale, dimZero]
  · unfold fpPow
    norm_num [Double.toRat?]
  · simp [DimScale, dimVelocity]
  
/-- Concrete instance of the magnitude clause of `pow_spec` with its
hypothesis discharged: a cube of a finite nonzero magnitude. -/
theorem pow_spec_inst :
    (fpPow (.fin 2 false) 3).toRat? = some ((2 : ℚ) ^ (3 : ℤ)) :=
  (pow_spec dimVelocity 3 ⟨.fin 2 false⟩).2.2.1 2 false 3 (.inl (by decide))

/-- C8: dividing by a zero-magnitude quantity (or a zero scalar) is total
and never an error: it yields a non-finite (infinite or NaN) magnitude,
exactly as IEEE-754 prescribes, and NaN then propagates through the other
arithmetic operations rather than being turned into a raised error. -/
theorem div_by_zero_ieee (d1 d2 : Dimensions)
    (a : Quantity d1) (b : Quantity d2) (hb : b.value.isZero = true) :
    (qdiv a b).value.isFinite = false ∧
    ((qdiv a b).value = .nan ∨ ∃ s, (qdiv a b).value = .inf s) ∧
    (∀ (d : Dimensions) (q : Quantity d) (s : Double), s.isZero = true →
      (qdivScalar q s).value.isFinite = false) ∧
    (∀ v : Double, fpMul .nan v = .nan ∧ fpAdd .nan v = .nan ∧
      fpSub .nan v = .nan ∧ fpDiv .nan v = .nan ∧ fcmp .nan v = none) := by
  have key : ∀ (u w : Double), w.isZero = true →
      (fpDiv u w).isFinite = false ∧
      (fpDiv u w = .nan ∨ ∃ s, fpDiv u w = .inf s) := by
    intro u w hw
    rcases w with _ | p | ⟨y, ny⟩ <;> simp [Double.isZero] at hw
    rcases u with _ | p | ⟨x, nx⟩
    · simp [fpDiv, Double.isFinite]
    · simp [fpDiv, hw, Double.isFinite]
    · subst hw
      rcases eq_or_ne x 0 with rfl | hx
      · simp [fpDiv, Double.isFinite]
      · refine ⟨?_, Or.inr ⟨!(xor (Double.signBit (.fin x nx))
          (Double.signBit (.fin 0 ny))), ?_⟩⟩ <;>
          simp [fpDiv, hx, Double.isFinite]
  refine ⟨(key a.value b.value hb).1, (key a.value b.value hb).2, ?_, ?_⟩
  · intro d q s hs
    exact (key q.value s hs).1
  · intro v
    rcases v with _ | p | ⟨y, ny⟩ <;>
      exact ⟨rfl, rfl, rfl, rfl, rfl⟩

/-- Concrete instance of `div_by_zero_ieee`: `1.0 / 0.0` (a length over a
zero time) has a non-finite magnitude. -/
theorem div_by_zero_ieee_inst :
    (qdiv (⟨.fin 1 false⟩ : Quantity dimLength)
      (⟨.fin 0 false⟩ : Quantity dimTime)).value.isFinite = false :=
  (div_by_zero_ieee dimLength dimTime ⟨.fin 1 false⟩ ⟨.fin 0 false⟩
    (by decide)).1

/-- An if-guarded singleton slot list is empty exactly when its guard
holds. -/
lemma ite_nil_eq_nil (c : Prop) [Decidable c] (j : ℕ) :
    ((if c then ([] : List ℕ) else [j]) = []) ↔ c := by
  split <;> simp_all

/-- Membership in an if-guarded singleton slot list. -/
lemma mem_ite_nil_slot (i j : ℕ) (c : Prop) [Decidable c] :
    (i ∈ if c then ([] : List ℕ) else [j]) ↔ (¬c ∧ i = j) := by
  split <;> simp_all

/-- `ratSqrt` is exact on the square of a nonnegative rational. -/
lemma ratSqrt_of_sq (r : ℚ) (hr : 0 ≤ r) : ratSqrt (r * r) = r := by
  unfold ratSqrt
  rw [Rat.mul_self_num, Rat.mul_self_den]
  have hnum : (r.num * r.num).toNat = r.num.natAbs * r.num.natAbs := by
    rw [← Int.natAbs_mul_self]
    exact Int.toNat_natCast _
  rw [hnum, Nat.sqrt_eq, Nat.sqrt_eq]
  have hcast : (r.num.natAbs : ℚ) = ((r.num.natAbs : ℤ) : ℚ) :=
    (Int.cast_natCast _).symm
  rw [hcast, Int.natAbs_of_nonneg (Rat.num_nonneg.mpr hr), Rat.num_div_den]

/-- C2: `halve` is admissible exactly when every one of the seven
exponents is even (no fallback: the odd-slot list of firing
`static_assert`s is empty iff the guard holds, and it names exactly the
non-even slots); under the guard halving is exact division by two.
`sqrt` has dimension `halve(dim q)` and takes the square root of the
magnitude: a negative magnitude yields NaN (never an error or a complex
result), and on a positive magnitude whose root is exactly representable
the result is the real square root. -/
theorem sqrt_halve_spec (d : Dimensions) (q : Quantity d) :
    (DimHalveOK d ↔ oddSlots d = []) ∧
    (∀ i : ℕ, i ∈ oddSlots d ↔ (i < 7 ∧ ¬ slot d i % 2 = 0)) ∧
    (DimHalveOK d → DimScale (DimHalve d) 2 = d) ∧
    qdim (qsqrt q) = DimHalve d ∧
    (qsqrt q).value = fpSqrt q.value ∧
    (∀ (x : ℚ) (nz : Bool), x < 0 → fpSqrt (.fin x nz) = .nan) ∧
    fpSqrt .nan = .nan ∧ fpSqrt (.inf false) = .nan ∧
    (∀ (x r : ℚ) (nz : Bool), 0 < x → 0 ≤ r → r * r = x →
      fpSqrt (.fin x nz) = .fin r false) := by
  refine ⟨?_, ?_, ?_, rfl, rfl, ?_, rfl, rfl, ?_⟩
  · unfold DimHalveOK oddSlots
    simp only [List.append_eq_nil, ite_nil_eq_nil]
    tauto
  · intro i
    constructor
    · intro hmem
      unfold oddSlots at hmem
      simp only [List.mem_append, mem_ite_nil_slot] at hmem
      rcases hmem with ((((((⟨hc, rfl⟩ | ⟨hc, rfl⟩) | ⟨hc, rfl⟩) |
        ⟨hc, rfl⟩) | ⟨hc, rfl⟩) | ⟨hc, rfl⟩) | ⟨hc, rfl⟩) <;>
        exact ⟨by omega, by simpa [slot] using hc⟩
    · rintro ⟨hi, hodd⟩
      interval_cases i <;> simp [slot] at hodd <;>
        simp [oddSlots, mem_ite_nil_slot, hodd]
  · rintro ⟨h1, h2, h3, h4, h5, h6, h7⟩
    have key : ∀ x : ℤ, x % 2 = 0 → (x.tdiv 2) * 2 = x := by
      intro x hx
      obtain ⟨k, rfl⟩ := Int.dvd_of_emod_eq_zero hx
      rw [Int.mul_tdiv_cancel_left _ (by decide)]
      ring
    simp [DimScale, DimHalve, key _ h1, key _ h2, key _ h3, key _ h4,
      key _ h5, key _ h6, key _ h7]
  · intro x nz hx
    simp [fpSqrt, hx]
  · intro x r nz hx hr hrx
    subst hrx
    simp [fpSqrt, not_lt.mpr (mul_self_nonneg r), ne_of_gt hx,
      ratSqrt_of_sq r hr]

/-- Concrete instance of `sqrt_halve_spec` with each hypothesis
discharged: halving the all-even area dimension, NaN on a negative
magnitude, and the exact root of `1`. -/
theorem sqrt_halve_spec_inst :
    DimScale (DimHalve dimArea) 2 = dimArea ∧
    fpSqrt (.fin (-1) false) = .nan ∧
    fpSqrt (.fin 1 false) = .fin 1 false := by
  have h := sqrt_halve_spec dimArea ⟨.fin 1 false⟩
  exact ⟨h.2.2.1 (by decide), h.2.2.2.2.2.1 (-1) false (by decide),
    h.2.2.2.2.2.2.2.2 1 1 false (by decide) (by decide) (by simp)⟩

/-- The three-way comparison on two finite doubles is the rational
three-way comparison, ignoring the zero-sign bits. -/
lemma fcmp_fin_fin (x y : ℚ) (a b : Bool) :
    fcmp (.fin x a) (.fin y b) =
      some (if x < y then .lt else if y < x then .gt else .eq) := rfl

/-- NaN on the left is unordered against everything. -/
lemma fcmp_nan_left (v : Double) : fcmp .nan v = none := by
  cases v <;> rfl

/-- NaN on the right is unordered against everything. -/
lemma fcmp_nan_right (v : Double) : fcmp v .nan = none := by
  cases v <;> rfl

/-- On finite magnitudes, `<` is the rational strict order. -/
lemma qlt_fin_iff (d : Dimensions) (x y : ℚ) (a b : Bool) :
    qlt (d := d) ⟨.fin x a⟩ ⟨.fin y b⟩ = true ↔ x < y := by
  simp only [qlt, fcmp_fin_fin, decide_eq_true_eq, Option.some.injEq]
  split_ifs with h1 h2 <;> simp [h1]

/-- On finite magnitudes, `==` is the rational equality. -/
lemma qeq_fin_iff (d : Dimensions) (x y : ℚ) (a b : Bool) :
    qeq (d := d) ⟨.fin x a⟩ ⟨.fin y b⟩ = true ↔ x = y := by
  simp only [qeq, fcmp_fin_fin, decide_eq_true_eq, Option.some.injEq]
  split_ifs with h1 h2
  · simp [ne_of_lt h1]
  · simp [ne_of_gt h2]
  · simp [le_antisymm (not_lt.mp h2) (not_lt.mp h1)]

/-- C6: all six relational operators come from the one three-way
comparison; on finite magnitudes equality is reflexive, `<=` is
antisymmetric and `<` is transitive; a positive zero equals a negative
zero; and every comparison against a NaN magnitude is false except `!=`,
which is true. -/
theorem compare_spec (d : Dimensions) (a b c : Quantity d) :
    (qle a b = (qlt a b || qeq a b) ∧ qge a b = (qgt a b || qeq a b) ∧
      qne a b = !qeq a b) ∧
    (a.value.isFinite = true → qeq a a = true) ∧
    (a.value.isFinite = true → b.value.isFinite = true →
      qle a b = true → qle b a = true → qeq a b = true) ∧
    (a.value.isFinite = true → b.value.isFinite = true →
      c.value.isFinite = true → qlt a b = true → qlt b c = true →
      qlt a c = true) ∧
    qeq (⟨.fin 0 false⟩ : Quantity d) ⟨.fin 0 true⟩ = true ∧
    ((a.value = .nan ∨ b.value = .nan) →
      qlt a b = false ∧ qle a b = false ∧ qgt a b = false ∧
      qge a b = false ∧ qeq a b = false ∧ qne a b = true) := by
  obtain ⟨av⟩ := a
  obtain ⟨bv⟩ := b
  obtain ⟨cv⟩ := c
  refine ⟨⟨rfl, rfl, rfl⟩, ?_, ?_, ?_, ?_, ?_⟩
  · intro ha
    cases av with
    | nan => simp [Double.isFinite] at ha
    | inf p => simp [Double.isFinite] at ha
    | fin x nx => exact (qeq_fin_iff d x x nx nx).mpr rfl
  · intro ha hb h1 h2
    cases av with
    | nan => simp [Double.isFinite] at ha
    | inf p => simp [Double.isFinite] at ha
    | fin x nx =>
      cases bv with
      | nan => simp [Double.isFinite] at hb
      | inf p => simp [Double.isFinite] at hb
      | fin y ny =>
        rw [qeq_fin_iff]
        rcases Bool.or_eq_true_iff.mp (by simpa [qle] using h1) with hl | he
        · rcases Bool.or_eq_true_iff.mp (by simpa [qle] using h2) with hl2 | he2
          · exact absurd ((qlt_fin_iff d y x ny nx).mp hl2)
              (lt_asymm ((qlt_fin_iff d x y nx ny).mp hl))
          · exact ((qeq_fin_iff d y x ny nx).mp he2).symm
        · exact (qeq_fin_iff d x y nx ny).mp he
  · intro ha hb hc h1 h2
    cases av with
    | nan => simp [Double.isFinite] at ha
    | inf p => simp [Double.isFinite] at ha
    | fin x nx =>
      cases bv with
      | nan => simp [Double.isFinite] at hb
      | inf p => simp [Double.isFinite] at hb
      | fin y ny =>
        cases cv with
        | nan => simp [Double.isFinite] at hc
        | inf p => simp [Double.isFinite] at hc
        | fin z nz =>
          exact (qlt_fin_iff d x z nx nz).mpr
            (lt_trans ((qlt_fin_iff d x y nx ny).mp h1)
              ((qlt_fin_iff d y z ny nz).mp h2))
  · exact (qeq_fin_iff d 0 0 false true).mpr rfl
  · intro h
    rcases h with h | h <;> simp only at h <;> subst h <;>
      simp [qlt, qle, qgt, qge, qeq, qne, fcmp_nan_left, fcmp_nan_right]

/-- Concrete instances of `compare_spec` with the finiteness and NaN
hypotheses discharged. -/
theorem compare_spec_inst :
    qeq (⟨.fin 5 false⟩ : Quantity dimLength) ⟨.fin 5 false⟩ = true ∧
    qlt (⟨.fin 1 false⟩ : Quantity dimLength) ⟨.fin 3 false⟩ = true ∧
    qne (⟨.nan⟩ : Quantity dimLength) ⟨.fin 0 false⟩ = true := by
  have h1 := compare_spec dimLength ⟨.fin 5 false⟩ ⟨.fin 5 false⟩
    ⟨.fin 5 false⟩
  have h2 := compare_spec dimLength ⟨.fin 1 false⟩ ⟨.fin 2 false⟩
    ⟨.fin 3 false⟩
  have h3 := compare_spec dimLength ⟨.nan⟩ ⟨.fin 0 false⟩ ⟨.fin 0 false⟩
  exact ⟨h1.2.1 (by decide),
    h2.2.2.2.1 (by decide) (by decide) (by decide) (by decide) (by decide),
    (h3.2.2.2.2.2 (Or.inl rfl)).2.2.2.2.2⟩

/-- Token the documented grammar assigns to one nonzero slot: the bare
symbol when the exponent is `1`, `symbol^exponent` otherwise. -/
def dimToken (nm : String) (e : ℤ) : String :=
  if e = 1 then nm else nm ++ "^" ++ toString e

/-- The tokens of the nonzero-exponent slots, in slot order. -/
def tokensOf (l : List (String × ℤ)) : List String :=
  (l.filter (fun p => p.2 != 0)).map (fun p => dimToken p.1 p.2)

/-- Join tokens with the single `·` separator; the dimensionless marker
`1` when there is no token. -/
def dimJoin : List String → String
  | [] => "1"
  | t :: ts => ts.foldl (fun u v => u ++ "·" ++ v) t

/-- Reference rendering of the documented dimension-string grammar:
iterate the seven slots in order, skip zero exponents, token per slot,
join with `·`, and print `1` when every exponent is zero. -/
def dim_string_spec (d : Dimensions) : String := dimJoin (tokensOf (dimSlots d))

/-- Appending anything to a nonempty string stays nonempty. -/
lemma str_append_ne_empty_left (s t : String) (hs : s ≠ "") : s ++ t ≠ "" := by
  intro h
  have hd := congrArg String.data h
  rw [String.data_append] at hd
  exact hs (String.ext (List.append_eq_nil.mp hd).1)

/-- A token of a nonempty symbol is nonempty. -/
lemma dimToken_ne_empty (nm : String) (e : ℤ) (h : nm ≠ "") :
    dimToken nm e ≠ "" := by
  unfold dimToken
  split
  · exact h
  · exact str_append_ne_empty_left _ _ (str_append_ne_empty_left _ _ h)

/-- The loop body skips a zero exponent. -/
lemma dimStep_skip (acc nm : String) : dimStep acc nm 0 = acc := by
  simp [dimStep]

/-- On a nonzero exponent the loop body appends exactly the grammar's
token, preceded by the separator when the accumulator is nonempty. -/
lemma dimStep_eq (acc nm : String) (e : ℤ) (he : e ≠ 0) :
    dimStep acc nm e =
      if acc = "" then dimToken nm e else acc ++ "·" ++ dimToken nm e := by
  unfold dimStep dimToken
  rw [if_neg he]
  by_cases ha : acc = "" <;> by_cases h1 : e = 1 <;>
    simp [ha, h1] <;> apply String.ext <;> simp [String.data_append]

/-- Folding the loop body from a nonempty accumulator joins the tokens of
the remaining slots onto it. -/
lemma foldl_dimStep_acc :
    ∀ (l : List (String × ℤ)) (acc : String),
      (∀ p ∈ l, p.1 ≠ "") → acc ≠ "" →
      l.foldl (fun u p => dimStep u p.1 p.2) acc =
        (tokensOf l).foldl (fun u v => u ++ "·" ++ v) acc := by
  intro l
  induction l with
  | nil => intro acc _ _; rfl
  | cons p rest ih =>
    intro acc hl hacc
    obtain ⟨nm, e⟩ := p
    by_cases he : e = 0
    · subst he
      rw [List.foldl_cons, dimStep_skip]
      have ht : tokensOf ((nm, (0 : ℤ)) :: rest) = tokensOf rest := by
        simp [tokensOf]
      rw [ht]
      exact ih acc (fun q hq => hl q (List.mem_cons_of_mem _ hq)) hacc
    · rw [List.foldl_cons, dimStep_eq acc nm e he, if_neg hacc]
      have ht : tokensOf ((nm, e) :: rest) = dimToken nm e :: tokensOf rest := by
        simp [tokensOf, he]
      rw [ht, List.foldl_cons]
      exact ih _ (fun q hq => hl q (List.mem_cons_of_mem _ hq))
        (str_append_ne_empty_left _ _ (str_append_ne_empty_left _ _ hacc))

/-- Folding the loop body from the empty accumulator produces the join of
the tokens (with no leading separator). -/
lemma foldl_dimStep_start (l : List (String × ℤ)) (hl : ∀ p ∈ l, p.1 ≠ "") :
    l.foldl (fun u p => dimStep u p.1 p.2) "" =
      match tokensOf l with
      | [] => ""
      | t :: ts => ts.foldl (fun u v => u ++ "·" ++ v) t := by
  induction l with
  | nil => rfl
  | cons p rest ih =>
    obtain ⟨nm, e⟩ := p
    by_cases he : e = 0
    · subst he
      rw [List.foldl_cons, dimStep_skip]
      have ht : tokensOf ((nm, (0 : ℤ)) :: rest) = tokensOf rest := by
        simp [tokensOf]
      rw [ht]
      exact ih (fun q hq => hl q (List.mem_cons_of_mem _ hq))
    · have hnm : nm ≠ "" := hl (nm, e) (List.mem_cons_self _ _)
      rw [List.foldl_cons, dimStep_eq "" nm e he, if_pos rfl]
      have ht : tokensOf ((nm, e) :: rest) = dimToken nm e :: tokensOf rest := by
        simp [tokensOf, he]
      rw [ht]
      exact foldl_dimStep_acc rest (dimToken nm e)
        (fun q hq => hl q (List.mem_cons_of_mem _ hq))
        (dimToken_ne_empty _ _ hnm)

/-- Joining tokens onto a nonempty string stays nonempty. -/
lemma foldl_join_ne_empty :
    ∀ (ts : List String) (t : String), t ≠ "" →
      ts.foldl (fun u v => u ++ "·" ++ v) t ≠ "" := by
  intro ts
  induction ts with
  | nil => intro t ht; exact ht
  | cons v rest ih =>
    intro t ht
    rw [List.foldl_cons]
    exact ih _ (str_append_ne_empty_left _ _ (str_append_ne_empty_left _ _ ht))

/-- Every token of a slot list with nonempty symbols is nonempty. -/
lemma tokensOf_ne_empty (l : List (String × ℤ)) (hl : ∀ p ∈ l, p.1 ≠ "") :
    ∀ s ∈ tokensOf l, s ≠ "" := by
  intro s hs
  unfold tokensOf at hs
  rcases List.mem_map.mp hs with ⟨p, hp, rfl⟩
  exact dimToken_ne_empty _ _ (hl p (List.mem_of_mem_filter hp))

/-- C5 counterexample: an exponent of `-1` is not printed as the bare
symbol.  The frequency dimension (time exponent `-1`) renders as `s^-1`,
not `s`: the formatter omits the exponent only for exponent exactly
`+1`. -/
theorem dim_string_neg_one_cex :
    dim_string dimFrequency = "s^-1" ∧ dim_string dimFrequency ≠ "s" := by
  constructor <;> decide

/-- C5 (amended): the stream output is `"<magnitude> [<dimension-string>]"`
and the dimension string follows the documented grammar with the exponent
omitted only at exactly `+1`: iterate the seven slots in fixed order, skip
zero exponents, print the bare symbol for exponent `1` and
`symbol^exponent` for every other exponent (including `-1`), join with the
single `·` separator, and print `1` when all seven exponents are zero. -/
theorem dim_string_follows_spec :
    (∀ (ms : String) (d : Dimensions),
      printQuantity ms d = ms ++ " [" ++ dim_string d ++ "]") ∧
    (∀ d : Dimensions, dim_string d = dim_string_spec d) := by
  refine ⟨fun ms d => rfl, fun d => ?_⟩
  have hl : ∀ p ∈ dimSlots d, p.1 ≠ "" := by
    intro p hp
    simp only [dimSlots, List.mem_cons, List.not_mem_nil, or_false] at hp
    rcases hp with h | h | h | h | h | h | h <;> subst h <;> simp
  unfold dim_string dim_string_spec dimJoin
  rw [foldl_dimStep_start (dimSlots d) hl]
  cases htok : tokensOf (dimSlots d) with
  | nil => rfl
  | cons t ts =>
    have hne := foldl_join_ne_empty ts t
      (tokensOf_ne_empty _ hl t (htok ▸ List.mem_cons_self t ts))
    simp only []
    rw [if_neg hne]

/-- Scale positivity and the offset/affine-name characterisation, checked
entry by entry over the mass section. -/
lemma catalogueMass_facts : ∀ e ∈ catalogueMass, 0 < e.scale ∧
    (e.offset ≠ 0 ↔ (e.name = "degC" ∨ e.name = "degF")) := by
  intro e he
  fin_cases he <;> exact ⟨by norm_num, by constructor <;> intro h <;> simp_all⟩

/-- Entrywise facts for the length section. -/
lemma catalogueLength_facts : ∀ e ∈ catalogueLength, 0 < e.scale ∧
    (e.offset ≠ 0 ↔ (e.name = "degC" ∨ e.name = "degF")) := by
  intro e he
  fin_cases he <;> exact ⟨by norm_num, by constructor <;> intro h <;> simp_all⟩

/-- Entrywise facts for the time section. -/
lemma catalogueTime_facts : ∀ e ∈ catalogueTime, 0 < e.scale ∧
    (e.offset ≠ 0 ↔ (e.name = "degC" ∨ e.name = "degF")) := by
  intro e he
  fin_cases he <;> exact ⟨by norm_num, by constructor <;> intro h <;> simp_all⟩

/-- Entrywise facts for the current section. -/
lemma catalogueCurrent_facts : ∀ e ∈ catalogueCurrent, 0 < e.scale ∧
    (e.offset ≠ 0 ↔ (e.name = "degC" ∨ e.name = "degF")) := by
  intro e he
  fin_cases he <;> exact ⟨by norm_num, by constructor <;> intro h <;> simp_all⟩

/-- Entrywise facts for the temperature section: exactly its two affine
entries carry a nonzero offset. -/
lemma catalogueTemperature_facts : ∀ e ∈ catalogueTemperature, 0 < e.scale ∧
    (e.offset ≠ 0 ↔ (e.name = "degC" ∨ e.name = "degF")) := by
  intro e he
  fin_cases he
  · exact ⟨by norm_num, by constructor <;> intro h <;> simp_all⟩
  · refine ⟨by norm_num [celsiusEntry], ?_⟩
    constructor
    · intro h
      exact Or.inl rfl
    · intro h
      norm_num [celsiusEntry]
  · refine ⟨by norm_num [fahrenheitEntry], ?_⟩
    constructor
    · intro h
      exact Or.inr rfl
    · intro h
      norm_num [fahrenheitEntry, fahrenheitLD]

/-- Entrywise facts for the amount and luminosity sections. -/
lemma catalogueAmountLum_facts : ∀ e ∈ catalogueAmountLum, 0 < e.scale ∧
    (e.offset ≠ 0 ↔ (e.name = "degC" ∨ e.name = "degF")) := by
  intro e he
  fin_cases he <;> exact ⟨by norm_num, by constructor <;> intro h <;> simp_all⟩

/-- Entrywise facts for the force section. -/
lemma catalogueForce_facts : ∀ e ∈ catalogueForce, 0 < e.scale ∧
    (e.offset ≠ 0 ↔ (e.name = "degC" ∨ e.name = "degF")) := by
  intro e he
  fin_cases he <;> exact ⟨by norm_num, by constructor <;> intro h <;> simp_all⟩

/-- Entrywise facts for the energy section. -/
lemma catalogueEnergy_facts : ∀ e ∈ catalogueEnergy, 0 < e.scale ∧
    (e.offset ≠ 0 ↔ (e.name = "degC" ∨ e.name = "degF")) := by
  intro e he
  fin_cases he <;> exact ⟨by norm_num, by constructor <;> intro h <;> simp_all⟩

/-- Entrywise facts for the power section. -/
lemma cataloguePower_facts : ∀ e ∈ cataloguePower, 0 < e.scale ∧
    (e.offset ≠ 0 ↔ (e.name = "degC" ∨ e.name = "degF")) := by
  intro e he
  fin_cases he <;> exact ⟨by norm_num, by constructor <;> intro h <;> simp_all⟩

/-- Entrywise facts for the pressure section. -/
lemma cataloguePressure_facts : ∀ e ∈ cataloguePressure, 0 < e.scale ∧
    (e.offset ≠ 0 ↔ (e.name = "degC" ∨ e.name = "degF")) := by
  intro e he
  fin_cases he <;> exact ⟨by norm_num, by constructor <;> intro h <;> simp_all⟩

/-- Entrywise facts for the frequency, volume, area and velocity
sections. -/
lemma catalogueFreqVolAreaVel_facts : ∀ e ∈ catalogueFreqVolAreaVel,
    0 < e.scale ∧
    (e.offset ≠ 0 ↔ (e.name = "degC" ∨ e.name = "degF")) := by
  intro e he
  fin_cases he <;> exact ⟨by norm_num, by constructor <;> intro h <;> simp_all⟩

/-- Entrywise facts for the voltage and charge sections. -/
lemma catalogueVoltageCharge_facts : ∀ e ∈ catalogueVoltageCharge,
    0 < e.scale ∧
    (e.offset ≠ 0 ↔ (e.name = "degC" ∨ e.name = "degF")) := by
  intro e he
  fin_cases he <;> exact ⟨by norm_num, by constructor <;> intro h <;> simp_all⟩

/-- Entrywise facts for the electromagnetism section. -/
lemma catalogueEM_facts : ∀ e ∈ catalogueEM, 0 < e.scale ∧
    (e.offset ≠ 0 ↔ (e.name = "degC" ∨ e.name = "degF")) := by
  intro e he
  fin_cases he <;> exact ⟨by norm_num, by constructor <;> intro h <;> simp_all⟩

/-- Entrywise facts for the radiation and photometry sections. -/
lemma catalogueRadPhoto_facts : ∀ e ∈ catalogueRadPhoto, 0 < e.scale ∧
    (e.offset ≠ 0 ↔ (e.name = "degC" ∨ e.name = "degF")) := by
  intro e he
  fin_cases he <;> exact ⟨by norm_num, by constructor <;> intro h <;> simp_all⟩

/-- Every catalogue entry has a positive scale, and its offset is nonzero
exactly when it is one of the two affine temperature scales. -/
lemma catalogue_entry_facts : ∀ e ∈ catalogue, 0 < e.scale ∧
    (e.offset ≠ 0 ↔ (e.name = "degC" ∨ e.name = "degF")) := by
  intro e he
  unfold catalogue at he
  simp only [List.mem_append] at he
  rcases he with (((((((((((((h | h) | h) | h) | h) | h) | h) | h) | h) |
    h) | h) | h) | h) | h)
  · exact catalogueMass_facts e h
  · exact catalogueLength_facts e h
  · exact catalogueTime_facts e h
  · exact catalogueCurrent_facts e h
  · exact catalogueTemperature_facts e h
  · exact catalogueAmountLum_facts e h
  · exact catalogueForce_facts e h
  · exact catalogueEnergy_facts e h
  · exact cataloguePower_facts e h
  · exact cataloguePressure_facts e h
  · exact catalogueFreqVolAreaVel_facts e h
  · exact catalogueVoltageCharge_facts e h
  · exact catalogueEM_facts e h
  · exact catalogueRadPhoto_facts e h

/-- C7: in the whole catalogue exactly the two affine temperature scales
(`degC`, `degF`, each appearing once) carry a nonzero additive offset
applied after the multiplicative scale, and every other unit is a pure
scale; `0` degrees Celsius constructs to magnitude `273.15` Kelvin,
`100 degC - 0 degC` is the delta `100`, and `0 degC + 100 degC` is the
(physically meaningless but well-typed) absolute value `646.3`. -/
theorem affine_units_spec :
    (∀ e ∈ catalogue, e.offset ≠ 0 ↔ (e.name = "degC" ∨ e.name = "degF")) ∧
    (catalogue.map UnitEntry.name).count "degC" = 1 ∧
    (catalogue.map UnitEntry.name).count "degF" = 1 ∧
    (applyLD celsiusEntry 0).value.toRat? = some 273.15 ∧
    (qsub (applyLD celsiusEntry 100) (applyLD celsiusEntry 0)).value.toRat? =
      some 100 ∧
    (qadd (applyLD celsiusEntry 0) (applyLD celsiusEntry 100)).value.toRat? =
      some 646.3 ∧
    (∀ v : ℚ,
      fahrenheitLD v = v * fahrenheitEntry.scale + fahrenheitEntry.offset) ∧
    (∀ v : ℚ,
      v + celsiusEntry.offset = v * celsiusEntry.scale + celsiusEntry.offset) := by
  refine ⟨fun e he => (catalogue_entry_facts e he).2, by decide, by decide,
    ?_, ?_, ?_, ?_, ?_⟩
  · norm_num [applyLD, celsiusEntry, Double.ofRat, Double.toRat?]
  · norm_num [applyLD, celsiusEntry, Double.ofRat, Double.toRat?, qsub,
      fpSub, fpAdd, fpNeg]
  · norm_num [applyLD, celsiusEntry, Double.ofRat, Double.toRat?, qadd,
      fpAdd]
  · intro v
    simp only [fahrenheitEntry, fahrenheitLD]
    ring
  · intro v
    unfold celsiusEntry
    ring

/-- Concrete instance of the offset characterisation of
`affine_units_spec`, applied to the first catalogue entry. -/
theorem affine_units_spec_inst :
    (⟨"kg", dimMass, 1, 0⟩ : UnitEntry).offset ≠ 0 ↔
      ((⟨"kg", dimMass, 1, 0⟩ : UnitEntry).name = "degC" ∨
       (⟨"kg", dimMass, 1, 0⟩ : UnitEntry).name = "degF") :=
  affine_units_spec.1 ⟨"kg", dimMass, 1, 0⟩ (List.Mem.head _)

/-- C9: every ratio-only (zero-offset) catalogue entry stores exactly
`v * scale`, and dividing that magnitude by the entry's scale gives back
the original literal exactly (scales are nonzero, by
`catalogue_entry_facts`). -/
theorem roundtrip_spec (e : UnitEntry) (he : e ∈ catalogue)
    (h0 : e.offset = 0) (v : ℚ) :
    (applyLD e v).value = Double.ofRat (v * e.scale) ∧
    v * e.scale / e.scale = v := by
  refine ⟨by simp [applyLD, h0], ?_⟩
  exact mul_div_cancel_right₀ v (ne_of_gt (catalogue_entry_facts e he).1)

/-- Concrete instance of `roundtrip_spec` on the metre entry at `v = 3`,
with the membership and zero-offset hypotheses discharged. -/
theorem roundtrip_spec_inst :
    (applyLD ⟨"m", dimLength, 1, 0⟩ 3).value = Double.ofRat (3 * 1) ∧
    (3 : ℚ) * 1 / 1 = 3 :=
  roundtrip_spec ⟨"m", dimLength, 1, 0⟩
    (by simp [catalogue, catalogueMass, catalogueLength]) rfl 3

/-- C10: for every catalogue entry the `unsigned long long` overload and
the `long double` overload agree exactly on every natural number (they are
the same affine formula in exact arithmetic, producing the same dimension
type by construction), and in particular the two differently-arranged
Fahrenheit overload formulas agree and match the catalogue's affine
normal form. -/
theorem overload_agreement :
    (∀ e ∈ catalogue, ∀ n : ℕ, applyULL e n = applyLD e (n : ℚ)) ∧
    (∀ n : ℕ, fahrenheitULL n = fahrenheitLD (n : ℚ)) ∧
    (∀ n : ℕ,
      applyLD fahrenheitEntry (n : ℚ) = ⟨Double.ofRat (fahrenheitULL n)⟩) := by
  refine ⟨fun e he n => rfl, fun n => rfl, fun n => ?_⟩
  have hpay : (n : ℚ) * fahrenheitEntry.scale + fahrenheitEntry.offset =
      fahrenheitULL n := by
    simp only [fahrenheitEntry, fahrenheitULL, fahrenheitLD]
    ring
  unfold applyLD
  rw [hpay]

/-- Concrete instance of `overload_agreement` on the kilogram entry at
`n = 7`, with the membership hypothesis discharged. -/
theorem overload_agreement_inst :
    applyULL ⟨"kg", dimMass, 1, 0⟩ 7 = applyLD ⟨"kg", dimMass, 1, 0⟩ ((7 : ℕ) : ℚ) :=
  overload_agreement.1 ⟨"kg", dimMass, 1, 0⟩ (List.Mem.head _) 7
